import Mathlib

/-!
Verification development for the makeepub line classifier (src/main.go).

Strings are embedded as lists of runes (`List Char`), matching the Go code,
which converts each input line to `[]rune` before inspecting it.  A call of
`parseLine` that panics in Go (index or slice out of range) is embedded as
`Option.none`; a normal return is `some (updated document, isUnknown)`.

Go `int` is 64-bit two's-complement on the platforms this program targets;
arithmetic that can overflow is embedded with an explicit wrap `wrap64`.

The external library github.com/chfanghr/chinese_number is not part of this
repository; its two entry points are modelled from the specification
(section 1 and section 4.2) and carry a `Modelled from the spec` note.
-/

set_option autoImplicit false

namespace Makeepub

/-- Rune-level heading data of a chapter (Go struct `paraHead`). -/
structure paraHead where
  id : Int
  title : List Char
deriving DecidableEq, Repr

/-- A chapter: heading plus accumulated body lines (Go struct `para`). -/
structure para where
  head : paraHead
  lines : List (List Char)
deriving DecidableEq, Repr

/-- Novel-level metadata (Go struct `novelHead`). -/
structure novelHead where
  title : List Char
  author : List Char
deriving DecidableEq, Repr

/-- The accumulated document (Go struct `novel`). -/
structure novel where
  head : novelHead
  paras : List para
deriving DecidableEq, Repr

/-- The empty document the driver starts from (`novel{}` in Go `main`). -/
def novel0 : novel := ⟨⟨[], []⟩, []⟩

/-- Go `isArabic` (src/main.go lines 79-81). -/
def isArabic (ch : Char) : Bool :=
  decide ('0' ≤ ch) && decide (ch ≤ '9')

/-- Go `isDigit` (src/main.go lines 83-96). -/
def isDigit (ch : Char) : Bool :=
  isArabic ch ||
    (['零', '一', '二', '三', '四', '五', '六', '七', '八', '九',
      '十', '百', '千', '万'] : List Char).contains ch

/-- Numeric value of an ASCII digit character. -/
def arabicVal (c : Char) : Nat := c.toNat - '0'.toNat

/-- Base-10 value of a run of ASCII digit characters. -/
def decVal (ds : List Char) : Nat :=
  ds.foldl (fun a c => 10 * a + arabicVal c) 0

/-- Model of Go `strconv.Atoi` on the scanned digit run: succeeds exactly on a
nonempty all-ASCII-digit string whose value fits in a signed 64-bit `int`
(otherwise `ErrSyntax` resp. `ErrRange`); the run never carries a sign. -/
def Atoi (ds : List Char) : Option Int :=
  if ds ≠ [] ∧ ds.all isArabic = true ∧ decVal ds ≤ 2 ^ 63 - 1 then
    some (decVal ds)
  else none

/-- Modelled from the spec: the per-character digit lookup used inside the
compound-numeral conversion of the external chinese_number library
(plain digit glyphs only). -/
def digitVal (c : Char) : Option Nat :=
  if c = '零' then some 0
  else if c = '一' then some 1
  else if c = '二' then some 2
  else if c = '三' then some 3
  else if c = '四' then some 4
  else if c = '五' then some 5
  else if c = '六' then some 6
  else if c = '七' then some 7
  else if c = '八' then some 8
  else if c = '九' then some 9
  else none

/-- Split a list at the first occurrence of `m`; `none` when `m` is absent. -/
def splitFirst (m : Char) : List Char → Option (List Char × List Char)
  | [] => none
  | c :: cs =>
    if c = m then some ([], cs)
    else
      match splitFirst m cs with
      | none => none
      | some (l, r) => some (c :: l, r)

/-- The magnitude words of a compound Chinese numeral, largest first. -/
def chineseMags : List (Char × Nat) := [('万', 10000), ('千', 1000), ('百', 100), ('十', 10)]

/-- Modelled from the spec: recursive descent over the magnitude words for the
strict compound-numeral conversion of the external chinese_number library
(section 4.2: magnitude words combined with digit words, with 零 as a gap
marker; a bare leading 十 means one ten; juxtaposed digit words with no
magnitude word in between are not a well-formed compound numeral). -/
def pcLoop : List (Char × Nat) → List Char → Option Nat
  | [], cs =>
    match cs with
    | [] => some 0
    | [d] => digitVal d
    | _ => none
  | (mc, mv) :: rest, cs =>
    match splitFirst mc cs with
    | none => pcLoop rest cs
    | some (left, right) =>
      let lv : Option Nat :=
        match left with
        | [] => if mc = '十' then some 1 else none
        | [d] =>
          match digitVal d with
          | some 0 => none
          | some v => some v
          | none => none
        | _ => none
      let rv : Option Nat :=
        match right with
        | '零' :: r :: rs => pcLoop rest (r :: rs)
        | ['零'] => none
        | _ => pcLoop rest right
      match lv, rv with
      | some l, some r => some (l * mv + r)
      | _, _ => none

/-- Modelled from the spec: `chinese_number.ToArabicNumber`, the strict
compound-numeral conversion; fails when the string is not a well-formed
compound numeral (section 1).  On failure the Go multi-value return leaves
the result at the zero value, so the caller sees `id = 0` plus an error. -/
def ToArabicNumber (cs : List Char) : Option Nat :=
  match cs with
  | [] => none
  | _ => pcLoop chineseMags cs

/-- Modelled from the spec: `chinese_number.ParseChineseNumberCharacter`
composed with `GetValue`, as used by the fallback path; only the plain digit
glyphs 零..九 are valid there (section 4.2). -/
def ParseChineseNumberCharacter (c : Char) : Option Int :=
  match digitVal c with
  | some v => some (v : Int)
  | none => none

/-- The `altId` accumulation of the fallback path (src/main.go lines 175-183):
each rune of the run is looked up independently, aborting on the first
failure. -/
def mapVals : List Char → Option (List Int)
  | [] => some []
  | c :: cs =>
    match ParseChineseNumberCharacter c, mapVals cs with
    | some v, some vs => some (v :: vs)
    | _, _ => none

/-- Wrap of a mathematical integer into a signed 64-bit Go `int`. -/
def wrap64 (x : Int) : Int := (x + 2 ^ 63) % 2 ^ 64 - 2 ^ 63

/-- One iteration of the reconstruction loop (src/main.go lines 184-188):
state is `(id, factor)`, every Go `int` operation wraps. -/
def goStep (v : Int) (p : Int × Int) : Int × Int :=
  (wrap64 (p.1 + wrap64 (v * p.2)), wrap64 (p.2 * 10))

/-- The digit-by-digit reconstruction loop of the fallback path, which walks
the value list from its last element to its first. -/
def goReconstruct (vs : List Int) : Int × Int := vs.foldr goStep (0, 1)

/-- The left-to-right decimal positional reading of a digit-value list, the
value the specification ascribes to the fallback path. -/
def specVal (vs : List Int) : Int := vs.foldl (fun a v => 10 * a + v) 0

/-- The chapter-number logic of `parseLine` (src/main.go lines 163-190) as a
function of the scanned digit run: Arabic first character means `Atoi` on the
whole run; otherwise the strict compound conversion, then the digit-by-digit
fallback. -/
def parseChapterNumber : List Char → Option Int
  | [] => none
  | d :: ds =>
    if isArabic d then Atoi (d :: ds)
    else
      match ToArabicNumber (d :: ds) with
      | some v => some ((v : Nat) : Int)
      | none =>
        match mapVals (d :: ds) with
        | none => none
        | some vs => some (goReconstruct vs).1

/-- The scan of the title branch (src/main.go lines 111-117): collect runes up
to the first closing mark, returning the collected title and the remainder
after the mark; `none` when no closing mark exists. -/
def scanTitle : List Char → Option (List Char × List Char)
  | [] => none
  | c :: cs =>
    if c = '》' then some ([], cs)
    else
      match scanTitle cs with
      | none => none
      | some (t, r) => some (c :: t, r)

/-- The six-rune author separator `" - 作者："` of src/main.go line 123. -/
def sepToken : List Char := [' ', '-', ' ', '作', '者', '：']

/-- Whether the extra-chapter marker stands at the head of the list. -/
def markerHere : List Char → Bool
  | '番' :: '外' :: '：' :: _ => true
  | _ => false

/-- Model of `regexp.MustCompile("番外：(.*?)").MatchString(line)`
(src/main.go line 200): the pattern is unanchored and `(.*?)` matches the
empty string, so the test holds exactly when the three marker runes occur
consecutively anywhere in the line. -/
def hasMarker : List Char → Bool
  | [] => false
  | c :: cs => markerHere (c :: cs) || hasMarker cs

/-- Append a body line to the last chapter (src/main.go line 144); the callers
guard against the empty list. -/
def appendToLast : List para → List Char → List para
  | [], _ => []
  | [p], l => [⟨p.head, p.lines ++ [l]⟩]
  | p :: q :: ps, l => p :: appendToLast (q :: ps) l

/-- The title-header case of `parseLine` (src/main.go lines 106-131), given
the runes after the opening mark. -/
def parseTitleLine (rest : List Char) (n : novel) : Option (novel × Bool) :=
  match scanTitle rest with
  | none => some (n, true)
  | some (title, after) =>
    let author := if 6 ≤ after.length ∧ after.take 6 = sepToken then after.drop 6 else []
    some (⟨⟨title, author⟩, n.paras⟩, false)

/-- The body-content case of `parseLine` (src/main.go lines 132-144), given
the whole line. -/
def parseContentLine (line : List Char) (n : novel) (lastStat : Bool) :
    Option (novel × Bool) :=
  if lastStat then some (n, true)
  else
    let content := line.dropWhile (fun x => x == ' ' || x == '\t' || x == '　')
    if content.isEmpty then some (n, false)
    else if n.paras.isEmpty then none
    else some (⟨n.head, appendToLast n.paras content⟩, false)

/-- The chapter-header case of `parseLine` (src/main.go lines 145-198), given
the runes after 第.  The three number paths stay apart because the
reconstruction loop of the fallback reuses the scan index `i`, leaving it at
`-1`, so a fallback-parsed chapter takes `runeLine[1:]` (here `rest`) as its
title and never trips the `runeLine[i+2:]` slice bound. -/
def parseChapterLine (rest : List Char) (n : novel) : Option (novel × Bool) :=
  match rest.takeWhile isDigit, rest.dropWhile isDigit with
  | [], _ => some (n, true)
  | _ :: _, [] => none
  | d :: ds, m :: ms =>
    if m = '章' then
      if isArabic d then
        match Atoi (d :: ds) with
        | none => some (n, true)
        | some id =>
          match ms with
          | [] => none
          | _ :: title => some (⟨n.head, n.paras ++ [⟨⟨id, title⟩, []⟩]⟩, false)
      else
        match ToArabicNumber (d :: ds) with
        | some v =>
          match ms with
          | [] => none
          | _ :: title => some (⟨n.head, n.paras ++ [⟨⟨(v : Int), title⟩, []⟩]⟩, false)
        | none =>
          match mapVals (d :: ds) with
          | none => some (n, true)
          | some vs =>
            some (⟨n.head, n.paras ++ [⟨⟨(goReconstruct vs).1, rest⟩, []⟩]⟩, false)
    else some (n, true)

/-- The default case of `parseLine` (src/main.go lines 199-211), given the
whole line. -/
def parseDefaultLine (line : List Char) (n : novel) : Option (novel × Bool) :=
  if hasMarker line then some (⟨n.head, n.paras ++ [⟨⟨-1, line⟩, []⟩]⟩, false)
  else some (n, true)

/-- Go `parseLine` (src/main.go lines 98-214).  `none` embeds a runtime panic
(index or slice out of range); `some (n2, b)` embeds a normal return with
updated document `n2` and result `isUnknown = b`. -/
def parseLine (line : List Char) (n : novel) (lastStat : Bool) : Option (novel × Bool) :=
  match line with
  | [] => some (n, true)
  | c :: rest =>
    if c = '《' then parseTitleLine rest n
    else if c = ' ' ∨ c = '　' then parseContentLine line n lastStat
    else if c = '第' then parseChapterLine rest n
    else parseDefaultLine line n

/-! ### Helper lemmas -/

theorem parseLine_title (rest : List Char) (n : novel) (lastStat : Bool) :
    parseLine ('《' :: rest) n lastStat = parseTitleLine rest n := rfl

theorem parseLine_chapter (rest : List Char) (n : novel) (lastStat : Bool) :
    parseLine ('第' :: rest) n lastStat = parseChapterLine rest n := rfl

theorem run_split (p : Char → Bool) (xs : List Char) (y : Char) (ys : List Char)
    (hx : xs.all p = true) (hy : p y = false) :
    (xs ++ y :: ys).takeWhile p = xs ∧ (xs ++ y :: ys).dropWhile p = y :: ys := by
  induction xs with
  | nil => simp [List.takeWhile_cons, List.dropWhile_cons, hy]
  | cons a t ih =>
    simp only [List.all_cons, Bool.and_eq_true] at hx
    obtain ⟨h1, h2⟩ := ih hx.2
    simp [List.takeWhile_cons, List.dropWhile_cons, hx.1, h1, h2]

theorem scanTitle_append (X rest : List Char) (hX : '》' ∉ X) :
    scanTitle (X ++ '》' :: rest) = some (X, rest) := by
  induction X with
  | nil => simp [scanTitle]
  | cons a t ih =>
    have ha : a ≠ '》' := fun hh => hX (hh ▸ List.mem_cons_self a t)
    have ht : '》' ∉ t := fun hh => hX (List.mem_cons_of_mem a hh)
    simp [scanTitle, ha, ih ht]

theorem appendToLast_spec (ps : List para) (l : List Char) (h : ps ≠ []) :
    ∃ init lst, ps = init ++ [lst] ∧
      appendToLast ps l = init ++ [⟨lst.head, lst.lines ++ [l]⟩] := by
  induction ps with
  | nil => exact absurd rfl h
  | cons p q ih =>
    cases q with
    | nil => exact ⟨[], p, rfl, rfl⟩
    | cons q2 qs =>
      obtain ⟨init, lst, h1, h2⟩ := ih (by simp)
      exact ⟨p :: init, lst, by simp [h1], by simp [appendToLast, h2]⟩

theorem digitVal_le (c : Char) (k : Nat) (h : digitVal c = some k) : k ≤ 9 := by
  unfold digitVal at h
  split_ifs at h <;> simp only [Option.some.injEq, reduceCtorEq] at h <;> omega

theorem pcnc_bounds (c : Char) (v : Int) (h : ParseChineseNumberCharacter c = some v) :
    0 ≤ v ∧ v ≤ 9 := by
  unfold ParseChineseNumberCharacter at h
  cases hd : digitVal c with
  | none => rw [hd] at h; exact absurd h (by simp)
  | some k =>
    rw [hd] at h
    simp only [Option.some.injEq] at h
    have hk := digitVal_le c k hd
    omega

theorem pcnc_mag_none (c : Char) (hc : c ∈ (['十', '百', '千', '万'] : List Char)) :
    ParseChineseNumberCharacter c = none := by
  simp only [List.mem_cons, List.not_mem_nil, or_false] at hc
  rcases hc with h | h | h | h <;> subst h <;> decide

theorem mapVals_eq_none (cs : List Char) (c : Char) (hc : c ∈ cs)
    (h : ParseChineseNumberCharacter c = none) : mapVals cs = none := by
  induction cs with
  | nil => simp at hc
  | cons a t ih =>
    rcases List.mem_cons.mp hc with h1 | h1
    · subst h1
      unfold mapVals
      rw [h]
    · unfold mapVals
      rw [ih h1]
      cases ParseChineseNumberCharacter a <;> rfl

theorem mapVals_bounds (cs : List Char) (vs : List Int) (h : mapVals cs = some vs) :
    ∀ v ∈ vs, 0 ≤ v ∧ v ≤ 9 := by
  induction cs generalizing vs with
  | nil =>
    simp only [mapVals, Option.some.injEq] at h
    subst h
    simp
  | cons a t ih =>
    unfold mapVals at h
    cases hp : ParseChineseNumberCharacter a with
    | none => rw [hp] at h; simp at h
    | some v0 =>
      rw [hp] at h
      cases hm : mapVals t with
      | none => rw [hm] at h; simp at h
      | some vs0 =>
        rw [hm] at h
        simp only [Option.some.injEq] at h
        subst h
        intro v hv
        rcases List.mem_cons.mp hv with h1 | h1
        · exact h1 ▸ pcnc_bounds a v0 hp
        · exact ih vs0 hm v h1

theorem parseChapterNumber_arabic (d : Char) (ds : List Char) (hd : isArabic d = true) :
    parseChapterNumber (d :: ds) = Atoi (d :: ds) := by
  simp [parseChapterNumber, hd]

theorem parseChapterNumber_cn (d : Char) (ds : List Char) (hd : isArabic d = false)
    (h2 : ToArabicNumber (d :: ds) = none) :
    parseChapterNumber (d :: ds)
      = match mapVals (d :: ds) with
        | none => none
        | some vs => some (goReconstruct vs).1 := by
  simp [parseChapterNumber, hd, h2]

theorem wrap64_eq {x : Int} (h0 : 0 ≤ x) (h1 : x < 2 ^ 63) : wrap64 x = x := by
  have e1 : (2 : Int) ^ 63 = 9223372036854775808 := by norm_num
  have e2 : (2 : Int) ^ 64 = 18446744073709551616 := by norm_num
  unfold wrap64
  rw [e1, e2] at *
  rw [Int.emod_eq_of_lt (by omega) (by omega)]
  omega

theorem foldl_dec_from (vs : List Int) : ∀ a : Int,
    vs.foldl (fun x v => 10 * x + v) a = a * 10 ^ vs.length + specVal vs := by
  induction vs with
  | nil => intro a; simp [specVal]
  | cons v t ih =>
    intro a
    have hv : specVal (v :: t) = v * 10 ^ t.length + specVal t := by
      show t.foldl _ (10 * 0 + v) = _
      rw [ih (10 * 0 + v)]
      ring
    show t.foldl _ (10 * a + v) = _
    rw [ih (10 * a + v), hv]
    simp only [List.length_cons]
    ring

theorem specVal_bounds (vs : List Int) (hb : ∀ v ∈ vs, 0 ≤ v ∧ v ≤ 9) :
    0 ≤ specVal vs ∧ specVal vs < 10 ^ vs.length := by
  induction vs with
  | nil => simp [specVal]
  | cons v t ih =>
    have hv := hb v (List.mem_cons_self v t)
    have ht := ih (fun x hx => hb x (List.mem_cons_of_mem v hx))
    have he : specVal (v :: t) = v * 10 ^ t.length + specVal t := by
      show t.foldl _ (10 * 0 + v) = _
      rw [foldl_dec_from t (10 * 0 + v)]
      ring
    have hp : (0 : Int) < 10 ^ t.length := pow_pos (by norm_num) _
    constructor
    · rw [he]
      have := mul_nonneg hv.1 hp.le
      omega
    · rw [he]
      simp only [List.length_cons, pow_succ]
      have h9 : v * 10 ^ t.length ≤ 9 * 10 ^ t.length :=
        mul_le_mul_of_nonneg_right hv.2 hp.le
      omega

theorem goReconstruct_eq (vs : List Int) (hb : ∀ v ∈ vs, 0 ≤ v ∧ v ≤ 9)
    (hl : vs.length ≤ 18) :
    goReconstruct vs = (specVal vs, 10 ^ vs.length) := by
  induction vs with
  | nil => simp [goReconstruct, specVal]
  | cons v t ih =>
    have hv := hb v (List.mem_cons_self v t)
    have hbt : ∀ x ∈ t, 0 ≤ x ∧ x ≤ 9 := fun x hx => hb x (List.mem_cons_of_mem v hx)
    have hlt : t.length ≤ 17 := by
      have : (v :: t).length = t.length + 1 := rfl
      omega
    have iht := ih hbt (by omega)
    have hst := specVal_bounds t hbt
    have hp : (0 : Int) < 10 ^ t.length := pow_pos (by norm_num) _
    have hp17 : (10 : Int) ^ t.length ≤ 10 ^ 17 :=
      pow_le_pow_right₀ (by norm_num) hlt
    have h17 : (10 : Int) ^ 17 = 100000000000000000 := by norm_num
    have h63 : (2 : Int) ^ 63 = 9223372036854775808 := by norm_num
    have hmul9 : v * 10 ^ t.length ≤ 9 * 10 ^ 17 := by
      calc v * 10 ^ t.length ≤ 9 * 10 ^ t.length :=
            mul_le_mul_of_nonneg_right hv.2 hp.le
        _ ≤ 9 * 10 ^ 17 := by
            have := hp17
            omega
    have hmul0 : 0 ≤ v * 10 ^ t.length := mul_nonneg hv.1 hp.le
    have he : specVal (v :: t) = v * 10 ^ t.length + specVal t := by
      show t.foldl _ (10 * 0 + v) = _
      rw [foldl_dec_from t (10 * 0 + v)]
      ring
    show goStep v (goReconstruct t) = _
    rw [iht]
    unfold goStep
    have w1 : wrap64 (v * 10 ^ t.length) = v * 10 ^ t.length :=
      wrap64_eq hmul0 (by omega)
    have w2 : wrap64 (specVal t + v * 10 ^ t.length) = specVal t + v * 10 ^ t.length :=
      wrap64_eq (by omega) (by omega)
    have w3 : wrap64 (10 ^ t.length * 10) = 10 ^ t.length * 10 :=
      wrap64_eq (by positivity) (by omega)
    simp only [w1, w2, w3]
    rw [Prod.mk.injEq]
    constructor
    · rw [he]; ring
    · simp only [List.length_cons, pow_succ]

theorem decVal_from (ds : List Char) : ∀ a : Nat,
    ds.foldl (fun x c => 10 * x + arabicVal c) a = a * 10 ^ ds.length + decVal ds := by
  induction ds with
  | nil => intro a; simp [decVal]
  | cons c t ih =>
    intro a
    have hv : decVal (c :: t) = arabicVal c * 10 ^ t.length + decVal t := by
      show t.foldl _ (10 * 0 + arabicVal c) = _
      rw [ih (10 * 0 + arabicVal c)]
      ring
    show t.foldl _ (10 * a + arabicVal c) = _
    rw [ih (10 * a + arabicVal c), hv]
    simp only [List.length_cons]
    ring

theorem decVal_eq_ofDigits (ds : List Char) :
    decVal ds = Nat.ofDigits 10 (ds.map arabicVal).reverse := by
  induction ds with
  | nil => simp [decVal, Nat.ofDigits]
  | cons c t ih =>
    have h1 : decVal (c :: t) = arabicVal c * 10 ^ t.length + decVal t := by
      show t.foldl _ (10 * 0 + arabicVal c) = _
      rw [decVal_from t (10 * 0 + arabicVal c)]
      ring
    have h2 : ((c :: t).map arabicVal).reverse
        = (t.map arabicVal).reverse ++ [arabicVal c] := by simp
    rw [h1, h2, Nat.ofDigits_append, ih, Nat.ofDigits_singleton]
    simp only [List.length_reverse, List.length_map]
    ring

/-! ### Claim theorems -/

/-- Claim C1 (code bug, evaluation at the failing input): a body-marker line
with real content, arriving when the document has no chapters and the previous
line was recognized, makes the code index `paras[len(paras)-1]` on an empty
slice; the call panics (embedded as `none`) instead of returning with the
document unchanged. -/
theorem c1_orphan_content_panics : parseLine [' ', 'x'] novel0 false = none := by decide

/-- Claim C2 (counterexample): a line that is exactly the marker 番外： is
handled by the extra-chapter branch and returns `isUnknown = false`, not the
claimed `unrecognized = true`; and because the pattern is unanchored, a line
whose first character is not part of the marker also appends an extra chapter. -/
theorem c2_counterexample :
    parseLine ['番', '外', '：'] novel0 false
      = some (⟨⟨[], []⟩, [⟨⟨-1, ['番', '外', '：']⟩, []⟩]⟩, false) ∧
    parseLine ['x', '番', '外', '：'] novel0 false
      = some (⟨⟨[], []⟩, [⟨⟨-1, ['x', '番', '外', '：']⟩, []⟩]⟩, false) := by decide

/-- Claim C2 (amended): for every nonempty line not dispatched by the earlier
first-character rules, if the marker 番外： occurs anywhere in it (the Go
pattern is unanchored), the classifier appends a new chapter with id -1 and
title equal to the entire raw line, and returns `isUnknown = false`
(recognized) to the caller. -/
theorem c2_extra_chapter (c : Char) (cs : List Char) (n : novel) (lastStat : Bool)
    (h1 : c ≠ '《') (h2 : ¬(c = ' ' ∨ c = '　')) (h3 : c ≠ '第')
    (h4 : hasMarker (c :: cs) = true) :
    parseLine (c :: cs) n lastStat
      = some (⟨n.head, n.paras ++ [⟨⟨-1, c :: cs⟩, []⟩]⟩, false) := by
  unfold parseLine
  simp [h1, h2, h3, h4, parseDefaultLine]

/-- Concrete instance of the amended claim C2. -/
theorem c2_extra_chapter_witness :
    parseLine ['a', '番', '外', '：'] novel0 false
      = some (⟨⟨[], []⟩, [⟨⟨-1, ['a', '番', '外', '：']⟩, []⟩]⟩, false) :=
  c2_extra_chapter 'a' ['番', '外', '：'] novel0 false (by decide) (by decide)
    (by decide) (by decide)

/-- Claim C4 (code bug, evaluation at the failing input): a line starting with
第 whose nonempty digit run reaches the end of the line makes the code read
`runeLine[i]` with `i = len(runeLine)`; the call panics (embedded as `none`)
instead of returning `unrecognized = true`. -/
theorem c4_missing_suffix_at_eol_panics : parseLine ['第', '1'] novel0 false = none := by
  decide

/-- Claim C5: when the strict compound conversion has failed on a digit run
that contains a magnitude word, the fallback digit-by-digit path fails as
well, so the chapter-number parse yields nothing and the header line is
reported unrecognized with the document unchanged. -/
theorem c5_fallback_rejects_magnitude (d : Char) (ds rest : List Char) (n : novel)
    (lastStat : Bool)
    (h1 : isArabic d = false)
    (h2 : (d :: ds).all isDigit = true)
    (h3 : ToArabicNumber (d :: ds) = none)
    (h4 : ∃ c ∈ d :: ds, c ∈ (['十', '百', '千', '万'] : List Char)) :
    parseChapterNumber (d :: ds) = none ∧
    parseLine ('第' :: ((d :: ds) ++ '章' :: rest)) n lastStat = some (n, true) := by
  obtain ⟨c, hc1, hc2⟩ := h4
  have hmap : mapVals (d :: ds) = none := mapVals_eq_none _ c hc1 (pcnc_mag_none c hc2)
  have hrun := run_split isDigit (d :: ds) '章' rest h2 (by decide)
  constructor
  · rw [parseChapterNumber_cn d ds h1 h3, hmap]
  · rw [parseLine_chapter]
    unfold parseChapterLine
    rw [hrun.1, hrun.2]
    simp [h1, h3, hmap]

/-- Concrete instance of claim C5. -/
theorem c5_witness :
    parseChapterNumber ['一', '二', '十'] = none ∧
    parseLine ['第', '一', '二', '十', '章'] novel0 false = some (novel0, true) :=
  c5_fallback_rejects_magnitude '一' ['二', '十'] [] novel0 false (by decide) (by decide)
    (by decide) ⟨'十', by decide, by decide⟩

/-- Claim C6: a line 《X》 - 作者：Y sets the document title to X and the
author to Y; a line 《X》 with nothing after the closing mark sets the title
to X and leaves the author empty; both overwrite any previous values and
return `isUnknown = false`. -/
theorem c6_title_author (X Y : List Char) (n : novel) (lastStat : Bool)
    (hX : '》' ∉ X) :
    parseLine ('《' :: (X ++ '》' :: (sepToken ++ Y))) n lastStat
      = some (⟨⟨X, Y⟩, n.paras⟩, false) ∧
    parseLine ('《' :: (X ++ ['》'])) n lastStat = some (⟨⟨X, []⟩, n.paras⟩, false) := by
  constructor
  · rw [parseLine_title]
    unfold parseTitleLine
    rw [scanTitle_append X (sepToken ++ Y) hX]
    have hlen : 6 ≤ (sepToken ++ Y).length := by simp [sepToken]
    have htake : (sepToken ++ Y).take 6 = sepToken := rfl
    have hdrop : (sepToken ++ Y).drop 6 = Y := rfl
    simp [hlen, htake, hdrop]
    intro hlt
    simp only [sepToken, List.length_cons, List.length_nil] at hlt
    omega
  · rw [parseLine_title]
    unfold parseTitleLine
    rw [scanTitle_append X [] hX]
    simp

/-- Concrete instance of claim C6. -/
theorem c6_witness :
    parseLine ('《' :: (['T'] ++ '》' :: (sepToken ++ ['J']))) novel0 false
      = some (⟨⟨['T'], ['J']⟩, []⟩, false) ∧
    parseLine ('《' :: (['T'] ++ ['》'])) novel0 false
      = some (⟨⟨['T'], []⟩, []⟩, false) :=
  c6_title_author ['T'] ['J'] novel0 false (by decide)

/-- Claim C7 (counterexample): the number logic does not return a value for
every run starting with an ASCII digit: a 19-digit run of nines overflows the
64-bit `int` range of `strconv.Atoi`, and a run mixing a Chinese glyph after
an ASCII first digit makes `Atoi` fail; both yield no chapter number at all. -/
theorem c7_counterexample :
    parseChapterNumber (List.replicate 19 '9') = none ∧
    parseChapterNumber ['1', '一'] = none := by decide

/-- Claim C7 (amended): for a nonempty run consisting entirely of ASCII digits
whose base-10 value fits in a signed 64-bit `int`, the number logic returns
that exact value; for a run handed to the fallback (first character
non-Arabic, strict compound conversion failed) whose characters all map to
plain digit values, of length at most 18, it returns the left-to-right decimal
positional reconstruction. -/
theorem c7_parse_number :
    (∀ ds : List Char, ds ≠ [] → ds.all isArabic = true → decVal ds ≤ 2 ^ 63 - 1 →
      parseChapterNumber ds
        = some ((Nat.ofDigits 10 (ds.map arabicVal).reverse : Nat) : Int)) ∧
    (∀ (d : Char) (ds : List Char) (vs : List Int),
      isArabic d = false → ToArabicNumber (d :: ds) = none →
      mapVals (d :: ds) = some vs → vs.length ≤ 18 →
      parseChapterNumber (d :: ds) = some (specVal vs)) := by
  constructor
  · intro ds hne hall hle
    cases ds with
    | nil => exact absurd rfl hne
    | cons d t =>
      have hd : isArabic d = true := by
        have h := hall
        simp only [List.all_cons, Bool.and_eq_true] at h
        exact h.1
      rw [parseChapterNumber_arabic d t hd]
      unfold Atoi
      rw [if_pos ⟨hne, hall, hle⟩, ← decVal_eq_ofDigits]
  · intro d ds vs h1 h2 h3 hlen
    have hb := mapVals_bounds (d :: ds) vs h3
    rw [parseChapterNumber_cn d ds h1 h2, h3]
    simp [goReconstruct_eq vs hb hlen]

/-- Concrete instance of the amended claim C7. -/
theorem c7_witness :
    parseChapterNumber ['1', '2']
      = some ((Nat.ofDigits 10 ((['1', '2'] : List Char).map arabicVal).reverse : Nat) : Int) ∧
    parseChapterNumber ['一', '二', '三'] = some (specVal [1, 2, 3]) :=
  ⟨c7_parse_number.1 ['1', '2'] (by decide) (by decide) (by decide),
   c7_parse_number.2 '一' ['二', '三'] [1, 2, 3] (by decide) (by decide) (by decide)
     (by decide)⟩

/-- Claim C8: a body-marker line classified right after an unrecognized line
is itself reported unrecognized and nothing is mutated. -/
theorem c8_suppressed_body_line (c : Char) (cs : List Char) (n : novel)
    (h : c = ' ' ∨ c = '　') :
    parseLine (c :: cs) n true = some (n, true) := by
  have h1 : c ≠ '《' := by rcases h with h | h <;> subst h <;> decide
  unfold parseLine
  simp [h1, h, parseContentLine]

/-- Concrete instance of claim C8. -/
theorem c8_witness : parseLine [' ', 'a'] novel0 true = some (novel0, true) :=
  c8_suppressed_body_line ' ' ['a'] novel0 (Or.inl rfl)

/-- Claim C9: any call that returns normally changes the chapter list in one
of the allowed append-only ways: it is untouched, or a single fresh chapter
with no lines is appended at the end, or a single line is appended to the
last chapter; earlier chapters and earlier lines are never removed, reordered
or edited. -/
theorem c9_append_only (line : List Char) (n : novel) (lastStat : Bool)
    (n2 : novel) (b : Bool) (h : parseLine line n lastStat = some (n2, b)) :
    n2.paras = n.paras ∨
    (∃ hd : paraHead, n2.paras = n.paras ++ [⟨hd, []⟩]) ∨
    (∃ (init : List para) (lst : para) (l : List Char),
      n.paras = init ++ [lst] ∧ n2.paras = init ++ [⟨lst.head, lst.lines ++ [l]⟩]) := by
  cases line with
  | nil =>
    simp only [parseLine, Option.some.injEq, Prod.mk.injEq] at h
    exact Or.inl (by rw [← h.1])
  | cons c rest =>
    simp only [parseLine, parseTitleLine, parseContentLine, parseChapterLine,
      parseDefaultLine] at h
    repeat' split at h
    all_goals
      simp only [Option.some.injEq, Prod.mk.injEq, reduceCtorEq] at h
    all_goals obtain ⟨h1, h2⟩ := h
    all_goals rw [← h1]
    all_goals try exact Or.inl rfl
    all_goals try exact Or.inr (Or.inl ⟨_, rfl⟩)
    rename_i hne
    have hps : n.paras ≠ [] := by
      intro hh
      rw [hh] at hne
      exact hne rfl
    obtain ⟨init, lst, he1, he2⟩ := appendToLast_spec n.paras _ hps
    exact Or.inr (Or.inr ⟨init, lst, _, he1, he2⟩)

/-- Concrete instance of claim C9. -/
theorem c9_witness :
    (⟨⟨[], []⟩, [⟨⟨-1, ['番', '外', '：', 'w']⟩, []⟩]⟩ : novel).paras = novel0.paras ∨
    (∃ hd : paraHead,
      (⟨⟨[], []⟩, [⟨⟨-1, ['番', '外', '：', 'w']⟩, []⟩]⟩ : novel).paras
        = novel0.paras ++ [⟨hd, []⟩]) ∨
    (∃ (init : List para) (lst : para) (l : List Char),
      novel0.paras = init ++ [lst] ∧
      (⟨⟨[], []⟩, [⟨⟨-1, ['番', '外', '：', 'w']⟩, []⟩]⟩ : novel).paras
        = init ++ [⟨lst.head, lst.lines ++ [l]⟩]) :=
  c9_append_only ['番', '外', '：', 'w'] novel0 false
    ⟨⟨[], []⟩, [⟨⟨-1, ['番', '外', '：', 'w']⟩, []⟩]⟩ false (by decide)

/-- Claim C10 (counterexample): for the line 第1一章 — exactly 第, the
nonempty digit-class run 1一, then a final 章 — the call returns normally with
`unrecognized = true`, because `strconv.Atoi` rejects the mixed run before the
title slice is ever taken; and for the line 第一二章 the fallback path leaves
the reused scan index at -1, so the call also returns normally and appends a
chapter whose title is the whole line after 第. -/
theorem c10_counterexample :
    parseLine ['第', '1', '一', '章'] novel0 false = some (novel0, true) ∧
    parseLine ['第', '一', '二', '章'] novel0 false
      = some (⟨⟨[], []⟩, [⟨⟨12, ['一', '二', '章']⟩, []⟩]⟩, false) := by decide

/-- Claim C10 (amended): for a line that is exactly 第, a nonempty digit-class
run, then a final 章, where the run is accepted by the Arabic path or by the
strict compound path (the paths that leave the scan index at the end of the
run), the title slice `runeLine[i+2:]` starts beyond the end of the line, the
call does not return normally (embedded as `none`) and no chapter is
appended. -/
theorem c10_end_at_marker_panics (d : Char) (ds : List Char) (n : novel) (lastStat : Bool)
    (h2 : (d :: ds).all isDigit = true)
    (h3 : (isArabic d = true ∧ Atoi (d :: ds) ≠ none) ∨
          (isArabic d = false ∧ ToArabicNumber (d :: ds) ≠ none)) :
    parseLine ('第' :: ((d :: ds) ++ ['章'])) n lastStat = none := by
  have hrun := run_split isDigit (d :: ds) '章' [] h2 (by decide)
  rw [parseLine_chapter]
  unfold parseChapterLine
  rw [hrun.1, hrun.2]
  rcases h3 with ⟨ha, hb⟩ | ⟨ha, hb⟩
  · cases hA : Atoi (d :: ds) with
    | none => exact absurd hA hb
    | some id => simp [ha, hA]
  · cases hA : ToArabicNumber (d :: ds) with
    | none => exact absurd hA hb
    | some v => simp [ha, hA]

/-- Concrete instance of the amended claim C10. -/
theorem c10_witness : parseLine ['第', '1', '章'] novel0 false = none :=
  c10_end_at_marker_panics '1' [] novel0 false (by decide)
    (Or.inl ⟨by decide, by decide⟩)

end Makeepub
